import Mathlib

/-!
Shallow embedding of `aws_iot_expresslink.py` (awslabs/aws-iot-expresslink-library-python).

Strings are modelled as `List Char` (the file only ever receives ASCII wire
bytes, decoded one byte per character).  Python built-ins used by the source
(`str.replace`, `str.strip`, `str.lstrip`, `str.find`, `str.split`, `int(...)`)
are modelled by the `py...` functions below, each faithful to CPython's
semantics on the inputs the library can produce (non-empty patterns, ASCII
text).  Fallible Python operations (`int(...)` raising `ValueError`, list
indexing raising `IndexError`, `re.match(...).groups()` raising
`AttributeError` when the match is `None`) are modelled with `Except PyErr`.
-/

/-- Python exception kinds that the embedded code can raise. -/
inductive PyErr where
  | valueError
  | indexError
  | attributeError
deriving DecidableEq

/-- Python `str.replace` specialised to a one-character pattern: every
occurrence of `p` is replaced by `rep` (left-to-right, occurrences of a
single character never overlap). -/
def replaceOne (p : Char) (rep : List Char) : List Char → List Char
  | [] => []
  | c :: rest => (if c = p then rep else [c]) ++ replaceOne p rep rest

/-- Python `str.replace` specialised to a two-character pattern `p1 p2`:
left-to-right scan, non-overlapping replacement by `rep`. -/
def replaceTwo (p1 p2 : Char) (rep : List Char) : List Char → List Char
  | [] => []
  | [c] => [c]
  | c1 :: c2 :: rest =>
    if c1 = p1 ∧ c2 = p2 then
      rep ++ replaceTwo p1 p2 rep rest
    else
      c1 :: replaceTwo p1 p2 rep (c2 :: rest)

/-- Source `_escape`: `s.replace("\\", "\\\\").replace("\r", "\\D").replace("\n", "\\A")`. -/
def _escape (s : List Char) : List Char :=
  replaceOne '\n' ['\\', 'A'] (replaceOne '\r' ['\\', 'D'] (replaceOne '\\' ['\\', '\\'] s))

/-- Source `_unescape`: `s.replace("\\A", "\n").replace("\\D", "\r").replace("\\\\", "\\")`. -/
def _unescape (s : List Char) : List Char :=
  replaceTwo '\\' '\\' ['\\'] (replaceTwo '\\' 'D' ['\r'] (replaceTwo '\\' 'A' ['\n'] s))

instance {ε α : Type} [DecidableEq ε] [DecidableEq α] : DecidableEq (Except ε α) :=
  fun x y =>
    match x, y with
    | .ok a, .ok b =>
      if h : a = b then isTrue (by rw [h]) else isFalse (by intro hh; cases hh; exact h rfl)
    | .error a, .error b =>
      if h : a = b then isTrue (by rw [h]) else isFalse (by intro hh; cases hh; exact h rfl)
    | .ok _, .error _ => isFalse (by intro hh; cases hh)
    | .error _, .ok _ => isFalse (by intro hh; cases hh)

/-- Python `str.lstrip(chars)`: drop every leading character that occurs in
`chars` (the argument is a set of characters, not a literal marker). -/
def pyLStrip (chars : List Char) : List Char → List Char
  | [] => []
  | c :: rest => if c ∈ chars then pyLStrip chars rest else c :: rest

/-- Python `str.rstrip(chars)`: drop every trailing character in `chars`. -/
def pyRStrip (chars : List Char) (s : List Char) : List Char :=
  (pyLStrip chars s.reverse).reverse

/-- Python `str.strip(chars)`: drop the characters of `chars` from BOTH the
leading and the trailing end of the string. -/
def pyStrip (chars : List Char) (s : List Char) : List Char :=
  pyRStrip chars (pyLStrip chars s)

/-- ASCII whitespace, the character class stripped by a no-argument Python
`str.strip()` (the wire protocol is ASCII, so the Unicode cases never arise). -/
def wsChars : List Char := [' ', '\t', '\n', '\r', '\x0b', '\x0c']

/-- Python `str.strip()` with no argument: strip whitespace from both ends. -/
def pyStripWS (s : List Char) : List Char :=
  pyStrip wsChars s

/-- Character set of the literal strip argument in `_readline`:
`"\r\n\x00\xff\xfe\xfd\xfc\xfb\xfa"`. -/
def fillerChars : List Char :=
  ['\r', '\n', '\x00', 'ÿ', 'þ', 'ý', 'ü', 'û', 'ú']

/-- Python `str.startswith(pat)`, with the pattern as first argument. -/
def startsWithL : List Char → List Char → Bool
  | [], _ => true
  | _ :: _, [] => false
  | p :: ps, c :: cs => p = c && startsWithL ps cs

/-- Python `str.find(c)` for a one-character needle: index of the first
occurrence (`none` models Python's `-1`). -/
def pyFindChar (p : Char) : List Char → Option Nat
  | [] => none
  | c :: rest => if c = p then some 0 else (pyFindChar p rest).map (· + 1)

/-- Numeric value of an ASCII digit. -/
def digitVal (c : Char) : Nat := c.toNat - 48

/-- Digit-run accumulator for `pyInt`: digits, with single underscores
permitted between digits (CPython's `int` grammar). -/
def digitsCore (acc : Nat) : List Char → Option Nat
  | [] => some acc
  | c :: rest =>
    if c.isDigit then digitsCore (10 * acc + digitVal c) rest
    else if c = '_' then
      match rest with
      | [] => none
      | d :: rest2 => if d.isDigit then digitsCore (10 * acc + digitVal d) rest2 else none
    else none

/-- Unsigned digit run: at least one digit, underscores only between digits. -/
def parseUDigits : List Char → Option Nat
  | [] => none
  | c :: rest => if c.isDigit then digitsCore (digitVal c) rest else none

/-- Python `int(s)` on ASCII text: surrounding whitespace allowed, optional
sign, then a digit run; `none` models the raised `ValueError`. -/
def pyInt (s : List Char) : Option Int :=
  match pyStripWS s with
  | '+' :: rest => (parseUDigits rest).map Int.ofNat
  | '-' :: rest => (parseUDigits rest).map (fun n => -(Int.ofNat n))
  | t => (parseUDigits t).map Int.ofNat

/-- Python `str.split(sep)` for a one-character separator: keeps empty
fields, never returns an empty list. -/
def pySplitChar (sep : Char) : List Char → List (List Char)
  | [] => [[]]
  | c :: rest =>
    if c = sep then
      [] :: pySplitChar sep rest
    else
      match pySplitChar sep rest with
      | [] => [[c]]
      | g :: gs => (c :: g) :: gs

/-!
The UART is modelled as the sequence of raw accumulated lines it delivers:
each call of `_readline` inside `cmd` consumes the next raw line and yields
`_unescape(raw.strip("\r\n\x00\xff\xfe\xfd\xfc\xfb\xfa"))` (lines 69-70 of
the source).  An exhausted UART yields the empty line, exactly as the real
polling loop does when no bytes arrive.
-/

/-- Post-processing that `_readline` applies to the accumulated raw bytes of
one line: `l.decode().strip("\r\n\x00\xff\xfe\xfd\xfc\xfb\xfa")` followed by
`_unescape(l)`. -/
def readlineProc (raw : List Char) : List Char :=
  _unescape (pyStrip fillerChars raw)

/-- Continuation-line loop of `cmd` (lines 671-676): read up to `n` further
lines, stop early at the first empty one, append each as `"\n" + al`. -/
def readMore : Nat → List (List Char) → List Char → List Char
  | 0, _, l => l
  | _ + 1, [], l => l
  | n + 1, raw :: rest, l =>
    let al := readlineProc raw
    if al = [] then l else readMore n rest (l ++ '\n' :: al)

/-- Response classification of `ExpressLink.cmd` (lines 644-678) on the
processed first line `l`, with `rest` the raw wire lines available for
continuation reads.  The returned triple is `(success, payload, error_code)`;
`Except.error` models an uncaught Python exception escaping `cmd`. -/
def cmdParse (l : List Char) (rest : List (List Char)) :
    Except PyErr (Bool × List Char × Option Int) :=
  if startsWithL ['O', 'K'] l then
    match pyFindChar ' ' (l.drop 2) with
    | some r =>
      if 0 < r then
        match pyInt ((l.drop 2).take r) with
        | none => .error .valueError
        | some n => .ok (true, pyStripWS (readMore n.toNat rest ((l.drop 2).drop r)), none)
      else .ok (true, pyStripWS (l.drop 2), none)
    | none => .ok (true, pyStripWS (l.drop 2), none)
  else if startsWithL ['E', 'R', 'R'] l then
    match pyFindChar ' ' (l.drop 3) with
    | some r =>
      if 0 < r then
        match pyInt ((l.drop 3).take r) with
        | none => .error .valueError
        | some code => .ok (false, pyStripWS ((l.drop 3).drop r), some code)
      else .ok (false, l.drop 3, some 2)
    | none => .ok (false, l.drop 3, some 2)
  else .ok (false, l, some 2)

/-- Source `ExpressLink.cmd` (lines 607-678): the first raw wire line is
accumulated and processed by `_readline`, then classified; continuation
lines come from the remaining wire lines. -/
def cmd (wire : List (List Char)) : Except PyErr (Bool × List Char × Option Int) :=
  cmdParse (readlineProc (wire.headD [])) wire.tail

/-- Source `ExpressLink.connected` (lines 759-769): issue `CONNECT?` and test
`line.split(" ")[0] == "1"`.  The split of any string is non-empty, so the
index-0 access never fails. -/
def connected (wire : List (List Char)) : Except PyErr Bool :=
  (cmd wire).map fun res => decide ((pySplitChar ' ' res.2.1).headD [] = ['1'])

/-- Source `ExpressLink.onboarded` (lines 771-781): issue `CONNECT?` and test
`line.split(" ")[1] == "1"`; a single-field line raises `IndexError`. -/
def onboarded (wire : List (List Char)) : Except PyErr Bool :=
  (cmd wire).bind fun res =>
    match (pySplitChar ' ' res.2.1).get? 1 with
    | none => .error .indexError
    | some t => .ok (decide (t = ['1']))

/-- Python regular-expression class `\S` (non-whitespace), ASCII fragment. -/
def isNonSpace (c : Char) : Bool := decide (c ∉ wsChars)

/-- Deterministic matcher for `re.match(r"(\d+) (\d+) (\S+)( \S+)?", line)` as
used by `get_event` (lines 912-914): anchored at the start, greedy runs (no
backtracking can ever help here, because each greedy run is followed by a
character excluded from the run's class).  Returns the four capture groups;
group 4 keeps its leading space, exactly as captured by `( \S+)?`. -/
def matchEvent (line : List Char) :
    Option (List Char × List Char × List Char × Option (List Char)) :=
  let d1 := line.takeWhile Char.isDigit
  let r1 := line.dropWhile Char.isDigit
  if d1 = [] then none else
  match r1 with
  | ' ' :: r2 =>
    let d2 := r2.takeWhile Char.isDigit
    let r3 := r2.dropWhile Char.isDigit
    if d2 = [] then none else
    match r3 with
    | ' ' :: r4 =>
      let m := r4.takeWhile isNonSpace
      let r5 := r4.dropWhile isNonSpace
      if m = [] then none else
      match r5 with
      | ' ' :: r6 =>
        let m2 := r6.takeWhile isNonSpace
        if m2 = [] then some (d1, d2, m, none) else some (d1, d2, m, some (' ' :: m2))
      | _ => some (d1, d2, m, none)
    | _ => none
  | _ => none

/-- Source `ExpressLink.get_event` (lines 881-915), for a device with no
event pin wired (`event_signal is None`, so the pin short-circuit and the
debouncer refresh are skipped).  The error code of the `EVENT?` command is
discarded (`success, line, _ = self.cmd("EVENT?")`); a line that defeats the
regular expression makes `.groups()` raise `AttributeError` on `None`. -/
def get_event (wire : List (List Char)) :
    Except PyErr (Option Int × Option Int × Option (List Char) × Option (List Char)) :=
  (cmd wire).bind fun res =>
    let success := res.1
    let line := res.2.1
    if (success && line.isEmpty) || !success then .ok (none, none, none, none)
    else
      match matchEvent line with
      | none => .error .attributeError
      | some (d1, d2, m, det) =>
        match pyInt d1, pyInt d2 with
        | some a, some b => .ok (some a, some b, some m, det)
        | _, _ => .error .valueError

/-- Outcome of one self-test attempt: the processed `_readline` result, or a
raised exception from the UART write/read (caught by the `except` clause). -/
def attemptOK (a : Except Unit (List Char)) : Bool :=
  match a with
  | .error _ => false
  | .ok r => decide (pyStripWS r = ['O', 'K'])

/-- Loop body of `ExpressLink.self_test` (lines 544-557): `fuel` remaining
attempts out of 5, `n` attempts already made; returns the boolean result and
the total number of attempts performed.  An exception in one attempt is
caught and the loop continues with the next attempt. -/
def selfTestGo (resp : Nat → Except Unit (List Char)) : Nat → Nat → Bool × Nat
  | 0, n => (false, n)
  | fuel + 1, n =>
    if attemptOK (resp n) then (true, n + 1) else selfTestGo resp fuel (n + 1)

/-- Source `ExpressLink.self_test`: up to 5 attempts, `resp i` being the
outcome of the i-th `AT` probe; also yields the attempt count. -/
def self_test (resp : Nat → Except Unit (List Char)) : Bool × Nat :=
  selfTestGo resp 5 0

/-- Readiness flag set by `ExpressLink.__init__` (lines 527-531):
`self.ready = self.self_test()` in effect. -/
def readyFlag (resp : Nat → Except Unit (List Char)) : Bool :=
  (self_test resp).1

/-- Accumulated bytes delivered by the first `n` polls of `uart.readline()`. -/
def pollAccum (polls : Nat → List Char) (n : Nat) : List Char :=
  (List.range n).flatMap polls

/-- Polling loop of `_readline` (lines 58-67): starting before iteration `i`
with accumulator `pollAccum polls i` and `fuel` iterations left, append each
chunk and break as soon as the accumulator ends with a line feed.  Returns
the final accumulator and the total number of iterations performed. -/
def readlineGo (polls : Nat → List Char) : Nat → Nat → List Char → List Char × Nat
  | 0, i, acc => (acc, i)
  | fuel + 1, i, acc =>
    let acc2 := acc ++ polls i
    if acc2.getLast? = some '\n' then (acc2, i + 1)
    else readlineGo polls fuel (i + 1) acc2

/-- Source `_readline` (lines 52-74) over the chunk sequence `polls`:
run the bounded 300-iteration loop, then strip the filler characters and
unescape.  Returns the processed line and the number of poll iterations. -/
def _readline (polls : Nat → List Char) : List Char × Nat :=
  let r := readlineGo polls 300 0 []
  (readlineProc r.1, r.2)

/-- Payload post-processing shared by the `Config.Certificate`,
`Config.RootCA`, `Config.HOTAcertificate` and `Config.OTAcertificate`
getters (lines 264-267, 295-302, 321-345):
`self._extract_value("... pem").lstrip("pem").strip()`. -/
def certValue (payload : List Char) : List Char :=
  pyStripWS (pyLStrip ['p', 'e', 'm'] payload)

/-!
Codec analysis for the escape/unescape round trip.  `noesc s` says that no
backslash of `s` is immediately followed by a capital `A` or `D`; on such
strings the sequential `str.replace` decoding of `_unescape` recovers the
input of `_escape` exactly.  `escCode` is the per-character code emitted by
`_escape`; `escCode2` and `escCode3` describe the intermediate streams after
the first and second `_unescape` replacement passes.
-/

/-- Condition for the round trip: no backslash immediately followed by a
capital `A` or capital `D` anywhere in the string. -/
def noesc : List Char → Bool
  | [] => true
  | [_] => true
  | x :: y :: r => !(x = '\\' && (y = 'A' || y = 'D')) && noesc (y :: r)

/-- Per-character code produced by `_escape`. -/
def escCode (c : Char) : List Char :=
  if c = '\\' then ['\\', '\\']
  else if c = '\r' then ['\\', 'D']
  else if c = '\n' then ['\\', 'A'] else [c]

/-- Stream shape after the `"\\A" -> "\n"` pass of `_unescape`. -/
def escCode2 (c : Char) : List Char :=
  if c = '\\' then ['\\', '\\']
  else if c = '\r' then ['\\', 'D'] else [c]

/-- Stream shape after the `"\\D" -> "\r"` pass of `_unescape`. -/
def escCode3 (c : Char) : List Char :=
  if c = '\\' then ['\\', '\\'] else [c]

theorem replaceOne_append (p : Char) (rep xs ys : List Char) :
    replaceOne p rep (xs ++ ys) = replaceOne p rep xs ++ replaceOne p rep ys := by
  induction xs with
  | nil => rfl
  | cons c t ih => simp [replaceOne, ih]

theorem escape_eq_flatMap (s : List Char) : _escape s = s.flatMap escCode := by
  induction s with
  | nil => rfl
  | cons c t ih =>
    have step : ∀ p rep (l : List Char) (d : Char),
        replaceOne p rep (d :: l) = (if d = p then rep else [d]) ++ replaceOne p rep l :=
      fun _ _ _ _ => rfl
    show replaceOne '\n' ['\\', 'A'] (replaceOne '\r' ['\\', 'D']
        (replaceOne '\\' ['\\', '\\'] (c :: t))) = _
    rw [step, replaceOne_append, replaceOne_append]
    rw [show replaceOne '\n' ['\\', 'A'] (replaceOne '\r' ['\\', 'D']
          (replaceOne '\\' ['\\', '\\'] t)) = _escape t from rfl, ih]
    by_cases h1 : c = '\\'
    · subst h1; simp [escCode]; rfl
    · by_cases h2 : c = '\r'
      · subst h2; simp [escCode]; rfl
      · by_cases h3 : c = '\n'
        · subst h3; simp [escCode, h1]; rfl
        · simp [escCode, h1, h2, h3, replaceOne]

theorem replaceTwo_cons₂ {p1 p2 c1 c2 : Char} {rep l : List Char}
    (h : ¬(c1 = p1 ∧ c2 = p2)) :
    replaceTwo p1 p2 rep (c1 :: c2 :: l) = c1 :: replaceTwo p1 p2 rep (c2 :: l) := by
  simp [replaceTwo, h]

theorem replaceTwo_hit (p1 p2 : Char) (rep l : List Char) :
    replaceTwo p1 p2 rep (p1 :: p2 :: l) = rep ++ replaceTwo p1 p2 rep l := by
  simp [replaceTwo]

theorem replaceTwo_cons_of_ne {p1 c : Char} (p2 : Char) (rep : List Char)
    (h : c ≠ p1) (l : List Char) :
    replaceTwo p1 p2 rep (c :: l) = c :: replaceTwo p1 p2 rep l := by
  cases l with
  | nil => rfl
  | cons d l' => exact replaceTwo_cons₂ (by simp [h])

theorem noesc_tail {c : Char} {t : List Char} (h : noesc (c :: t) = true) :
    noesc t = true := by
  cases t with
  | nil => rfl
  | cons y r => simp [noesc] at h ⊢; exact h.2

theorem noesc_bs {y : Char} {t : List Char} (h : noesc ('\\' :: y :: t) = true) :
    y ≠ 'A' ∧ y ≠ 'D' := by
  simp [noesc] at h
  exact ⟨h.1.1, h.1.2⟩

theorem escCode_head_ne {y : Char} (hy : y ≠ 'A') (r : List Char) :
    ∃ e E, escCode y ++ r = e :: E ∧ e ≠ 'A' := by
  by_cases h1 : y = '\\'
  · exact ⟨'\\', '\\' :: r, by simp [escCode, h1], by decide⟩
  · by_cases h2 : y = '\r'
    · exact ⟨'\\', 'D' :: r, by simp [escCode, h1, h2], by decide⟩
    · by_cases h3 : y = '\n'
      · exact ⟨'\\', 'A' :: r, by simp [escCode, h1, h2, h3], by decide⟩
      · exact ⟨y, r, by simp [escCode, h1, h2, h3], hy⟩

theorem escCode2_head_ne {y : Char} (hy : y ≠ 'D') (r : List Char) :
    ∃ e E, escCode2 y ++ r = e :: E ∧ e ≠ 'D' := by
  by_cases h1 : y = '\\'
  · exact ⟨'\\', '\\' :: r, by simp [escCode2, h1], by decide⟩
  · by_cases h2 : y = '\r'
    · exact ⟨'\\', 'D' :: r, by simp [escCode2, h1, h2], by decide⟩
    · exact ⟨y, r, by simp [escCode2, h1, h2], hy⟩

theorem unesc_stage1 : ∀ s : List Char, noesc s = true →
    replaceTwo '\\' 'A' ['\n'] (s.flatMap escCode) = s.flatMap escCode2 := by
  intro s
  induction s with
  | nil => intro _; rfl
  | cons c t ih =>
    intro h
    have ht : noesc t = true := noesc_tail h
    by_cases h1 : c = '\\'
    · subst h1
      cases t with
      | nil => decide
      | cons y t' =>
        obtain ⟨hyA, _⟩ := noesc_bs h
        obtain ⟨e, E, hE, he⟩ := escCode_head_ne hyA (t'.flatMap escCode)
        have expand : (('\\' : Char) :: y :: t').flatMap escCode
            = '\\' :: '\\' :: (escCode y ++ t'.flatMap escCode) := by
          simp [escCode]
        rw [expand, hE, replaceTwo_cons₂ (by decide),
          replaceTwo_cons₂ (by simp [he]), ← hE]
        rw [show escCode y ++ t'.flatMap escCode = (y :: t').flatMap escCode by simp]
        rw [ih ht]
        simp [escCode2]
    · by_cases h2 : c = '\r'
      · subst h2
        have expand : (('\r' : Char) :: t).flatMap escCode
            = '\\' :: 'D' :: t.flatMap escCode := by simp [escCode]
        rw [expand, replaceTwo_cons₂ (by decide),
          replaceTwo_cons_of_ne _ _ (by decide), ih ht]
        simp [escCode2]
      · by_cases h3 : c = '\n'
        · subst h3
          have expand : (('\n' : Char) :: t).flatMap escCode
              = '\\' :: 'A' :: t.flatMap escCode := by simp [escCode]
          rw [expand, replaceTwo_hit, ih ht]
          simp [escCode2, h1, h2]
        · have expand : (c :: t).flatMap escCode = c :: t.flatMap escCode := by
            simp [escCode, h1, h2, h3]
          rw [expand, replaceTwo_cons_of_ne _ _ h1, ih ht]
          simp [escCode2, h1, h2, h3]

theorem unesc_stage2 : ∀ s : List Char, noesc s = true →
    replaceTwo '\\' 'D' ['\r'] (s.flatMap escCode2) = s.flatMap escCode3 := by
  intro s
  induction s with
  | nil => intro _; rfl
  | cons c t ih =>
    intro h
    have ht : noesc t = true := noesc_tail h
    by_cases h1 : c = '\\'
    · subst h1
      cases t with
      | nil => decide
      | cons y t' =>
        obtain ⟨_, hyD⟩ := noesc_bs h
        obtain ⟨e, E, hE, he⟩ := escCode2_head_ne hyD (t'.flatMap escCode2)
        have expand : (('\\' : Char) :: y :: t').flatMap escCode2
            = '\\' :: '\\' :: (escCode2 y ++ t'.flatMap escCode2) := by
          simp [escCode2]
        rw [expand, hE, replaceTwo_cons₂ (by decide),
          replaceTwo_cons₂ (by simp [he]), ← hE]
        rw [show escCode2 y ++ t'.flatMap escCode2 = (y :: t').flatMap escCode2 by simp]
        rw [ih ht]
        simp [escCode3]
    · by_cases h2 : c = '\r'
      · subst h2
        have expand : (('\r' : Char) :: t).flatMap escCode2
            = '\\' :: 'D' :: t.flatMap escCode2 := by simp [escCode2]
        rw [expand, replaceTwo_hit, ih ht]
        simp [escCode3, h1]
      · have expand : (c :: t).flatMap escCode2 = c :: t.flatMap escCode2 := by
          simp [escCode2, h1, h2]
        rw [expand, replaceTwo_cons_of_ne _ _ h1, ih ht]
        simp [escCode3, h1]

theorem unesc_stage3 : ∀ s : List Char,
    replaceTwo '\\' '\\' ['\\'] (s.flatMap escCode3) = s := by
  intro s
  induction s with
  | nil => rfl
  | cons c t ih =>
    by_cases h1 : c = '\\'
    · subst h1
      have expand : (('\\' : Char) :: t).flatMap escCode3
          = '\\' :: '\\' :: t.flatMap escCode3 := by simp [escCode3]
      rw [expand, replaceTwo_hit, ih]
      rfl
    · have expand : (c :: t).flatMap escCode3 = c :: t.flatMap escCode3 := by
        simp [escCode3, h1]
      rw [expand, replaceTwo_cons_of_ne _ _ h1, ih]

theorem pyLStrip_all {chars s : List Char} (h : ∀ c ∈ s, c ∈ chars) :
    pyLStrip chars s = [] := by
  induction s with
  | nil => rfl
  | cons c t ih =>
    simp only [pyLStrip, if_pos (h c (by simp))]
    exact ih fun c hc => h c (by simp [hc])

theorem pyLStrip_append_of_all {chars pre : List Char} (s : List Char)
    (h : ∀ c ∈ pre, c ∈ chars) :
    pyLStrip chars (pre ++ s) = pyLStrip chars s := by
  induction pre with
  | nil => rfl
  | cons c t ih =>
    simp only [List.cons_append, pyLStrip, if_pos (h c (by simp))]
    exact ih fun c hc => h c (by simp [hc])

theorem pyLStrip_cons_of_notin {chars : List Char} {c : Char} (h : c ∉ chars)
    (s : List Char) : pyLStrip chars (c :: s) = c :: s := by
  simp [pyLStrip, h]

theorem pollAccum_succ (polls : Nat → List Char) (n : Nat) :
    pollAccum polls (n + 1) = pollAccum polls n ++ polls n := by
  unfold pollAccum
  rw [List.range_succ]
  simp

theorem readlineGo_spec (polls : Nat → List Char) :
    ∀ fuel i,
      i ≤ (readlineGo polls fuel i (pollAccum polls i)).2 ∧
      (readlineGo polls fuel i (pollAccum polls i)).2 ≤ i + fuel ∧
      (readlineGo polls fuel i (pollAccum polls i)).1
        = pollAccum polls (readlineGo polls fuel i (pollAccum polls i)).2 ∧
      ((readlineGo polls fuel i (pollAccum polls i)).2 = i + fuel ∨
        (pollAccum polls (readlineGo polls fuel i (pollAccum polls i)).2).getLast?
          = some '\n') ∧
      (∀ j, i < j → j < (readlineGo polls fuel i (pollAccum polls i)).2 →
        (pollAccum polls j).getLast? ≠ some '\n') := by
  intro fuel
  induction fuel with
  | zero =>
    intro i
    refine ⟨le_refl i, by simp [readlineGo], by simp [readlineGo], ?_, ?_⟩
    · left; simp [readlineGo]
    · intro j h1 h2
      simp [readlineGo] at h2
      omega
  | succ fuel ih =>
    intro i
    have hstep : readlineGo polls (fuel + 1) i (pollAccum polls i)
        = (if (pollAccum polls (i + 1)).getLast? = some '\n'
            then (pollAccum polls (i + 1), i + 1)
            else readlineGo polls fuel (i + 1) (pollAccum polls (i + 1))) := by
      simp only [readlineGo]
      rw [← pollAccum_succ]
    by_cases hLF : (pollAccum polls (i + 1)).getLast? = some '\n'
    · rw [hstep, if_pos hLF]
      refine ⟨by omega, by omega, rfl, Or.inr hLF, ?_⟩
      intro j h1 h2
      simp at h2
      omega
    · rw [hstep, if_neg hLF]
      obtain ⟨ha, hb, hc, hd, he⟩ := ih (i + 1)
      refine ⟨by omega, by omega, hc, ?_, ?_⟩
      · rcases hd with hd | hd
        · left; omega
        · right; exact hd
      · intro j h1 h2
        by_cases hj : j = i + 1
        · subst hj; exact hLF
        · exact he j (by omega) h2

theorem cmdParse_invariant (l : List Char) (rest : List (List Char)) (s : Bool)
    (p : List Char) (e : Option Int) (h : cmdParse l rest = .ok (s, p, e)) :
    ((e ≠ none) ↔ s = false) ∧
    (startsWithL ['O', 'K'] l = false → startsWithL ['E', 'R', 'R'] l = false →
      s = false ∧ e = some 2 ∧ p = l) := by
  unfold cmdParse at h
  split at h
  · -- OK prefix
    rename_i hOK
    constructor
    · split at h
      · split at h
        · split at h
          · exact absurd h (by simp)
          · simp only [Except.ok.injEq, Prod.mk.injEq] at h
            obtain ⟨hs, _, he⟩ := h
            subst hs; subst he
            simp
        · simp only [Except.ok.injEq, Prod.mk.injEq] at h
          obtain ⟨hs, _, he⟩ := h
          subst hs; subst he
          simp
      · simp only [Except.ok.injEq, Prod.mk.injEq] at h
        obtain ⟨hs, _, he⟩ := h
        subst hs; subst he
        simp
    · intro hO _
      rw [hOK] at hO
      cases hO
  · split at h
    · -- ERR prefix
      rename_i hERR
      constructor
      · split at h
        · split at h
          · split at h
            · exact absurd h (by simp)
            · simp only [Except.ok.injEq, Prod.mk.injEq] at h
              obtain ⟨hs, _, he⟩ := h
              subst hs; subst he
              simp
          · simp only [Except.ok.injEq, Prod.mk.injEq] at h
            obtain ⟨hs, _, he⟩ := h
            subst hs; subst he
            simp
        · simp only [Except.ok.injEq, Prod.mk.injEq] at h
          obtain ⟨hs, _, he⟩ := h
          subst hs; subst he
          simp
      · intro _ hE
        rw [hERR] at hE
        cases hE
    · -- neither prefix
      simp only [Except.ok.injEq, Prod.mk.injEq] at h
      obtain ⟨hs, hp, he⟩ := h
      subst hs; subst he; subst hp
      exact ⟨by simp, fun _ _ => ⟨rfl, rfl, rfl⟩⟩

/-!
Claim theorems.
-/

/-- C1, counterexample: the round trip `unescape(escape(s)) == s` fails for
the two-character string backslash-A.  `escape` turns it into two backslashes
followed by `A`, and the first `unescape` pass matches `"\\A"` at offset 1,
yielding backslash-LF instead of the original string. -/
theorem C1_roundtrip_cex :
    _unescape (_escape ['\\', 'A']) = ['\\', '\n'] ∧
    _unescape (_escape ['\\', 'A']) ≠ ['\\', 'A'] := by decide

/-- C1 (amended): for every string in which no backslash is immediately
followed by a capital `A` or capital `D`, applying `_unescape` to the result
of `_escape` yields the string back unchanged. -/
theorem C1_escape_unescape_roundtrip (s : List Char) (h : noesc s = true) :
    _unescape (_escape s) = s := by
  rw [escape_eq_flatMap]
  show replaceTwo '\\' '\\' ['\\'] (replaceTwo '\\' 'D' ['\r']
    (replaceTwo '\\' 'A' ['\n'] (s.flatMap escCode))) = s
  rw [unesc_stage1 s h, unesc_stage2 s h, unesc_stage3]

/-- C1, witness: the amended round trip at the concrete string `"a\\b\r\n"`. -/
theorem C1_escape_unescape_roundtrip_witness :
    noesc ("a\\b\r\n".toList) = true ∧
    _unescape (_escape ("a\\b\r\n".toList)) = "a\\b\r\n".toList :=
  ⟨by decide, C1_escape_unescape_roundtrip _ (by decide)⟩

/-- C2, counterexample: for the wire line `"ERRx y\r\n"` the remainder after
the `ERR` token has a space at index 1, so `cmd` calls `int("x")`, which
raises `ValueError`; the exception propagates to the caller instead of being
reported as a returned result with code 2. -/
theorem C2_err_nonnumeric_cex :
    cmd ["ERRx y\r\n".toList] = .error .valueError ∧
    cmd ["ERRx y\r\n".toList] ≠ .ok (false, "x y".toList, some 2) := by decide

/-- C2 (amended): for a response line beginning with `ERR`, `cmd` returns the
failure as `(False, remainder, 2)` only when the remainder contains no space
at a positive index (so no code token can be delimited); when a space at a
positive index delimits a non-numeric token, `int()` raises `ValueError`,
which propagates out of `cmd`. -/
theorem C2_err_malformed (wire : List (List Char))
    (hE : startsWithL ['E', 'R', 'R'] (readlineProc (wire.headD [])) = true)
    (hO : startsWithL ['O', 'K'] (readlineProc (wire.headD [])) = false) :
    ((∀ r, pyFindChar ' ' ((readlineProc (wire.headD [])).drop 3) = some r → r = 0) →
      cmd wire = .ok (false, (readlineProc (wire.headD [])).drop 3, some 2)) ∧
    (∀ r, pyFindChar ' ' ((readlineProc (wire.headD [])).drop 3) = some r → 0 < r →
      pyInt (((readlineProc (wire.headD [])).drop 3).take r) = none →
      cmd wire = .error .valueError) := by
  set l0 := readlineProc (wire.headD []) with hl0
  have hcmd : cmd wire = cmdParse l0 wire.tail := rfl
  constructor
  · intro hfind
    rw [hcmd]
    unfold cmdParse
    rw [hO, hE]
    simp only [Bool.false_eq_true, if_false, if_true]
    cases hf : pyFindChar ' ' (l0.drop 3) with
    | none => rfl
    | some r =>
      have : r = 0 := hfind r hf
      subst this
      simp [hf]
  · intro r hf hr hint
    rw [hcmd]
    unfold cmdParse
    rw [hO, hE]
    simp only [Bool.false_eq_true, if_false, if_true]
    rw [hf]
    simp only [hr, if_true, if_pos hr]
    rw [hint]

/-- C2, witness: both amended behaviours at concrete wire lines
(`"ERRxy\r\n"` has no space, `"ERRx y\r\n"` has a non-numeric code token). -/
theorem C2_err_malformed_witness :
    cmd ["ERRxy\r\n".toList] = .ok (false, "xy".toList, some 2) ∧
    cmd ["ERRx y\r\n".toList] = .error .valueError := by
  constructor
  · have := (C2_err_malformed ["ERRxy\r\n".toList] (by decide) (by decide)).1
      (by decide)
    simpa using this
  · exact (C2_err_malformed ["ERRx y\r\n".toList] (by decide) (by decide)).2 1
      (by decide) (by decide) (by decide)

/-- C3, counterexample: for the wire response `"OK 1 0 foo bar\r\n"` the
derived connected predicate is not `false` — the payload is
`"1 0 foo bar"`, its first space-separated token is `"1"`, so `connected`
returns `true`. -/
theorem C3_connected_cex :
    connected ["OK 1 0 foo bar\r\n".toList] ≠ .ok false := by decide

/-- C3 (amended): for the connectivity query, wire response
`"OK 1 0 foo bar\r\n"` makes the connected predicate `true` (and onboarded
`false`); `"OK 1 1 foo bar\r\n"` makes both connected and onboarded `true`. -/
theorem C3_connect_query_predicates :
    connected ["OK 1 0 foo bar\r\n".toList] = .ok true ∧
    onboarded ["OK 1 0 foo bar\r\n".toList] = .ok false ∧
    connected ["OK 1 1 foo bar\r\n".toList] = .ok true ∧
    onboarded ["OK 1 1 foo bar\r\n".toList] = .ok true := by decide

/-- C4 (confirmed): whenever `cmd` returns a triple `(s, p, e)` (rather than
raising), `e` is present exactly when `s` is `false`; and if the processed
first line matches neither the `OK` nor the `ERR` prefix, the result is
failure with the sentinel code 2 and the raw processed line as payload. -/
theorem C4_error_code_iff (wire : List (List Char)) (s : Bool) (p : List Char)
    (e : Option Int) (h : cmd wire = .ok (s, p, e)) :
    ((e ≠ none) ↔ s = false) ∧
    (startsWithL ['O', 'K'] (readlineProc (wire.headD [])) = false →
      startsWithL ['E', 'R', 'R'] (readlineProc (wire.headD [])) = false →
      s = false ∧ e = some 2 ∧ p = readlineProc (wire.headD [])) :=
  cmdParse_invariant (readlineProc (wire.headD [])) wire.tail s p e h

/-- C4, witness: the invariant at the unexpected wire line `"ZZZ\r\n"`. -/
theorem C4_error_code_iff_witness :
    (((some 2 : Option Int) ≠ none) ↔ (false = false)) ∧
    (false = false ∧ (some 2 : Option Int) = some 2 ∧
      "ZZZ".toList = readlineProc (["ZZZ\r\n".toList].headD [])) :=
  ⟨(C4_error_code_iff ["ZZZ\r\n".toList] false ("ZZZ".toList) (some 2) (by decide)).1,
   (C4_error_code_iff ["ZZZ\r\n".toList] false ("ZZZ".toList) (some 2) (by decide)).2
     (by decide) (by decide)⟩

/-- C5 (confirmed): for the success line `"OK2 first\r\n"` followed by
`"second\r\n"` and `"third\r\n"`, `cmd` consumes the declared two additional
lines and returns success with payload `"first\nsecond\nthird"`. -/
theorem C5_multiline_payload :
    cmd ["OK2 first\r\n".toList, "second\r\n".toList, "third\r\n".toList]
      = .ok (true, "first\nsecond\nthird".toList, none) := by decide

/-- C6 (confirmed): if none of the five attempts yields the exact `OK` token
(exceptions included), the self test performs exactly 5 attempts and the
channel reports not-ready through the boolean flag; if the 3rd attempt
succeeds, it reports ready after exactly 3 attempts. -/
theorem C6_self_test (resp : Nat → Except Unit (List Char)) :
    ((∀ i, i < 5 → attemptOK (resp i) = false) →
      self_test resp = (false, 5) ∧ readyFlag resp = false) ∧
    (attemptOK (resp 0) = false → attemptOK (resp 1) = false →
      attemptOK (resp 2) = true → self_test resp = (true, 3)) := by
  have hunroll : self_test resp =
      (if attemptOK (resp 0) then (true, 1) else
       if attemptOK (resp 1) then (true, 2) else
       if attemptOK (resp 2) then (true, 3) else
       if attemptOK (resp 3) then (true, 4) else
       if attemptOK (resp 4) then (true, 5) else (false, 5)) := rfl
  constructor
  · intro h
    have h0 := h 0 (by omega)
    have h1 := h 1 (by omega)
    have h2 := h 2 (by omega)
    have h3 := h 3 (by omega)
    have h4 := h 4 (by omega)
    constructor
    · rw [hunroll]; simp [h0, h1, h2, h3, h4]
    · unfold readyFlag; rw [hunroll]; simp [h0, h1, h2, h3, h4]
  · intro h0 h1 h2
    rw [hunroll]; simp [h0, h1, h2]

/-- C6, witness: a UART that raises on every attempt gives 5 attempts and a
false readiness flag; a UART whose 3rd attempt answers `OK` stops after 3. -/
theorem C6_self_test_witness :
    self_test (fun _ => (.error () : Except Unit (List Char))) = (false, 5) ∧
    readyFlag (fun _ => (.error () : Except Unit (List Char))) = false ∧
    self_test (fun i => if i = 2 then (.ok ['O', 'K'] : Except Unit (List Char))
      else .error ()) = (true, 3) :=
  ⟨((C6_self_test (fun _ => (.error () : Except Unit (List Char)))).1
      (fun _ _ => rfl)).1,
   ((C6_self_test (fun _ => (.error () : Except Unit (List Char)))).1
      (fun _ _ => rfl)).2,
   (C6_self_test (fun i => if i = 2 then (.ok ['O', 'K'] : Except Unit (List Char))
      else .error ())).2 (by decide) (by decide) (by decide)⟩

/-- C7, counterexample: `_readline` strips filler from the FRONT of the line
as well — a leading NUL byte is removed, not left in place. -/
theorem C7_leading_filler_cex :
    readlineProc ('\x00' :: "OK\r\n".toList) = "OK".toList ∧
    readlineProc ('\x00' :: "OK\r\n".toList) ≠ '\x00' :: "OK".toList := by decide

/-- C7 (amended): the line reader removes CR/LF and the filler bytes from
BOTH the leading and the trailing end of the accumulated line (Python
`str.strip` with a character-set argument), then unescapes: for any
decomposition into filler prefix, core and filler suffix, where the core
neither starts nor ends with a filler character, the result is the
unescaped core. -/
theorem C7_strip_both_ends (pre core post : List Char)
    (hpre : ∀ c ∈ pre, c ∈ fillerChars) (hpost : ∀ c ∈ post, c ∈ fillerChars)
    (hhead : ∀ c, core.head? = some c → c ∉ fillerChars)
    (hlast : ∀ c, core.getLast? = some c → c ∉ fillerChars) :
    readlineProc (pre ++ core ++ post) = _unescape core := by
  unfold readlineProc pyStrip pyRStrip
  rw [List.append_assoc, pyLStrip_append_of_all _ hpre]
  cases core with
  | nil =>
    rw [List.nil_append, pyLStrip_all hpost]
    rfl
  | cons c core' =>
    have hc : c ∉ fillerChars := hhead c rfl
    rw [List.cons_append, pyLStrip_cons_of_notin hc]
    obtain ⟨d, rr, hrev⟩ : ∃ d rr, (c :: core').reverse = d :: rr := by
      cases hx : (c :: core').reverse with
      | nil => exact absurd hx (by simp)
      | cons d rr => exact ⟨d, rr, rfl⟩
    have hd : d ∉ fillerChars := by
      refine hlast d ?_
      rw [← List.head?_reverse, hrev]
      rfl
    rw [show (c :: (core' ++ post)) = (c :: core') ++ post from rfl,
      List.reverse_append, hrev,
      pyLStrip_append_of_all _ (fun x hx => hpost x (List.mem_reverse.mp hx)),
      pyLStrip_cons_of_notin hd, ← hrev, List.reverse_reverse]

/-- C7, witness: the amended strip behaviour at the concrete accumulated
line NUL, `O`, `K`, CR, LF: both the leading NUL and trailing CR LF go. -/
theorem C7_strip_both_ends_witness :
    readlineProc (['\x00'] ++ ['O', 'K'] ++ ['\r', '\n']) = _unescape ['O', 'K'] :=
  C7_strip_both_ends ['\x00'] ['O', 'K'] ['\r', '\n'] (by decide) (by decide)
    (by intro c hc; simp at hc; subst hc; decide)
    (by intro c hc; simp at hc; subst hc; decide)

theorem pollAccum_nil (m : Nat) : pollAccum (fun _ => ([] : List Char)) m = [] := by
  induction m with
  | zero => rfl
  | succ n ih => rw [pollAccum_succ, ih]; rfl

/-- C8 (confirmed): the line reader performs at most 300 poll iterations,
returns the trimmed and unescaped partial accumulation in every case, stops
at the first iteration after which the accumulator ends with a line feed,
and performs the full 300 iterations when no terminator ever appears. -/
theorem C8_readline_bounded (polls : Nat → List Char) :
    (_readline polls).2 ≤ 300 ∧
    (_readline polls).1 = readlineProc (pollAccum polls (_readline polls).2) ∧
    (∀ m, 1 ≤ m → m ≤ 300 → (pollAccum polls m).getLast? = some '\n' →
      (∀ j, 1 ≤ j → j < m → (pollAccum polls j).getLast? ≠ some '\n') →
      (_readline polls).2 = m) ∧
    ((∀ m, 1 ≤ m → m ≤ 300 → (pollAccum polls m).getLast? ≠ some '\n') →
      (_readline polls).2 = 300) := by
  have hinit : (pollAccum polls 0) = ([] : List Char) := rfl
  have hspec := readlineGo_spec polls 300 0
  rw [hinit] at hspec
  obtain ⟨ha, hb, hc, hd, he⟩ := hspec
  have h1 : (_readline polls).2 = (readlineGo polls 300 0 []).2 := rfl
  have h2 : (_readline polls).1 = readlineProc (readlineGo polls 300 0 []).1 := rfl
  have hz : (readlineGo polls 300 0 []).2 = 0 →
      (pollAccum polls (readlineGo polls 300 0 []).2).getLast? ≠ some '\n' := by
    intro hzero
    rw [hzero, hinit]
    simp
  refine ⟨by omega, by rw [h2, h1, hc], ?_, ?_⟩
  · intro m hm1 hm2 hmLF hmmin
    rw [h1]
    by_contra hne
    rcases Nat.lt_or_ge (readlineGo polls 300 0 []).2 m with hlt | hge
    · rcases hd with hd | hd
      · omega
      · have hpos : 1 ≤ (readlineGo polls 300 0 []).2 := by
          by_contra hp
          exact hz (by omega) hd
        exact hmmin _ hpos hlt hd
    · have : m < (readlineGo polls 300 0 []).2 := by omega
      exact he m (by omega) this hmLF
  · intro hnever
    rw [h1]
    rcases hd with hd | hd
    · omega
    · have hpos : 1 ≤ (readlineGo polls 300 0 []).2 := by
        by_contra hp
        exact hz (by omega) hd
      exact absurd hd (hnever _ hpos (by omega))

/-- C8, witness: a transport that delivers `"OK\r\n"` on the first poll makes
the reader stop after exactly one iteration, within the bound; a transport
that never delivers anything makes it run all 300 iterations. -/
theorem C8_readline_bounded_witness :
    (_readline (fun i => if i = 0 then ("OK\r\n".toList) else [])).2 ≤ 300 ∧
    (_readline (fun i => if i = 0 then ("OK\r\n".toList) else [])).2 = 1 ∧
    (_readline (fun _ => ([] : List Char))).2 = 300 :=
  ⟨(C8_readline_bounded _).1,
   (C8_readline_bounded _).2.2.1 1 (by omega) (by omega) (by decide)
     (fun j h1 h2 => absurd (Nat.lt_of_le_of_lt h1 h2) (Nat.lt_irrefl 1)),
   (C8_readline_bounded _).2.2.2
     (fun m _ _ => by rw [pollAccum_nil]; simp)⟩

/-- C9 (confirmed): the certificate getters post-process the payload with
`lstrip("pem")`, which removes every leading character drawn from the set
p, e, m — for the payload `"pemmycert"` the leading `m` of the certificate
body `"mycert"` is removed as well, so the returned value is `"ycert"`. -/
theorem C9_cert_lstrip_set :
    (∀ s : List Char, pyLStrip ['p', 'e', 'm'] s
      = s.dropWhile (fun c => decide (c ∈ ['p', 'e', 'm']))) ∧
    certValue ("pemmycert".toList) = "ycert".toList ∧
    certValue ("pemmycert".toList) ≠ "mycert".toList := by
  refine ⟨?_, by decide, by decide⟩
  intro s
  induction s with
  | nil => rfl
  | cons c t ih =>
    by_cases h : c ∈ ['p', 'e', 'm']
    · have h' : c = 'p' ∨ c = 'e' ∨ c = 'm' := by simpa using h
      simp [pyLStrip, List.dropWhile_cons, h, h', ih]
    · have h' : ¬(c = 'p' ∨ c = 'e' ∨ c = 'm') := by simpa using h
      simp [pyLStrip, List.dropWhile_cons, h, h', ih]

/-- C10 (confirmed): when the `EVENT?` command yields an unsuccessful
response (or a successful empty one), `get_event` returns the quadruple of
four `none`s — the same value as for an empty event queue — and the error
code is discarded. -/
theorem C10_get_event_err (wire : List (List Char)) (s : Bool) (line : List Char)
    (err : Option Int) (hc : cmd wire = .ok (s, line, err))
    (h : s = false ∨ line = []) :
    get_event wire = .ok (none, none, none, none) := by
  unfold get_event
  rw [hc]
  rcases h with h | h
  · subst h
    simp [Except.bind]
  · subst h
    cases s <;> simp [Except.bind]

/-- C10, witness: a well-formed error line `"ERR3 oops\r\n"` on the event
query yields the four-`none` quadruple. -/
theorem C10_get_event_err_witness :
    get_event ["ERR3 oops\r\n".toList] = .ok (none, none, none, none) :=
  C10_get_event_err ["ERR3 oops\r\n".toList] false ("oops".toList) (some 3)
    (by decide) (Or.inl rfl)
